import Mathlib

/-!
Shallow embedding of the TwoTable repository (src/main.py and
src/extract_openstreet.py) together with the spec-modelled venue-survey
aggregator (spec.md sections 3 and 4.1, whose implementation is not under
src/). MongoDB collections are modelled as Lean lists of documents;
pymongo cursor semantics (sort / skip / limit) are modelled explicitly,
following the documented behaviour of pymongo and the MongoDB server:
`Cursor.skip` raises `ValueError` on a negative argument, `limit(0)` means
"no limit", and a negative limit behaves as its absolute value.
Store failures (the exceptions the pymongo driver can raise) are modelled
by passing the collection as `Except String (List _)`: the `.error` case is
an unexpected driver failure carrying an internal message.
-/

namespace TwoTable

/-- Decidable equality for `Except`, so that endpoint results on concrete
inputs can be evaluated by `decide`. -/
instance {ε α : Type} [DecidableEq ε] [DecidableEq α] : DecidableEq (Except ε α) := fun x y => by
  cases x with
  | ok a =>
    cases y with
    | ok b => exact decidable_of_iff (a = b) ⟨fun h => by rw [h], fun h => by injection h⟩
    | error f => exact .isFalse (fun h => by injection h)
  | error e =>
    cases y with
    | ok b => exact .isFalse (fun h => by injection h)
    | error f => exact decidable_of_iff (e = f) ⟨fun h => by rw [h], fun h => by injection h⟩

/-- An HTTP error as raised by `fastapi.HTTPException(status_code, detail)`. -/
structure HErr where
  status : Nat
  detail : String
deriving DecidableEq

/-! ### ObjectId parsing (bson.ObjectId)

`bson.ObjectId(s)` for a `str` argument succeeds exactly when `s` is a
24-character hexadecimal string (case-insensitive); the resulting id is the
12-byte integer the string denotes. Any other string raises `InvalidId`. -/

/-- True on the characters `0-9a-fA-F`. -/
def isHexChar (c : Char) : Bool :=
  c.isDigit || (decide ('a' ≤ c) && decide (c ≤ 'f')) || (decide ('A' ≤ c) && decide (c ≤ 'F'))

/-- Numeric value of a hexadecimal digit. -/
def hexDigitVal (c : Char) : Nat :=
  if c.isDigit then c.toNat - 48
  else if 'a' ≤ c ∧ c ≤ 'f' then c.toNat - 87
  else if 'A' ≤ c ∧ c ≤ 'F' then c.toNat - 55
  else 0

/-- Models the `bson.ObjectId` constructor on a `str`: `some` (the 12-byte
integer value) on a well-formed 24-hex-character string, `none` (raises
`InvalidId`) otherwise. -/
def parseObjectId (s : String) : Option Nat :=
  if s.data.length = 24 ∧ s.data.all isHexChar then
    some (s.data.foldl (fun a c => a * 16 + hexDigitVal c) 0)
  else
    none

/-! ### Documents and list endpoints (src/main.py) -/

/-- A stored document of one of the three main.py collections, as far as the
list and get-by-id endpoints inspect it: its `_id` (modelled as the ObjectId
integer value), its `created_at` timestamp, and the remaining fields opaque. -/
structure StoredDoc where
  oid : Nat
  created_at : Int
  data : String
deriving DecidableEq

/-- The response shape shared by `get_all_waitlist`, `get_all_contacts` and
`get_all_venue_applications`: the JSON key of `items` is respectively
`entries` / `submissions` / `applications` in the source. -/
structure ListResponse where
  items : List StoredDoc
  total : Nat
  skip : Int
  limit : Int
  returned : Nat
deriving DecidableEq

/-- The sort order `.sort("created_at", -1)`: descending by `created_at`. -/
def createdDesc (a b : StoredDoc) : Prop := b.created_at ≤ a.created_at

instance : DecidableRel createdDesc := fun a b =>
  inferInstanceAs (Decidable (b.created_at ≤ a.created_at))

instance : IsTotal StoredDoc createdDesc :=
  ⟨fun a b => (le_total b.created_at a.created_at).imp id id⟩

instance : IsTrans StoredDoc createdDesc :=
  ⟨fun _ _ _ h1 h2 => le_trans h2 h1⟩

/-- The server-side sort `.sort("created_at", -1)` (applied before skip and
limit regardless of the order of cursor-method chaining). -/
def mongoSortDesc (l : List StoredDoc) : List StoredDoc :=
  l.insertionSort createdDesc

/-- MongoDB `limit`: `limit(0)` means no limit; a negative limit behaves as
its absolute value. -/
def mongoLimit (limit : Int) (l : List StoredDoc) : List StoredDoc :=
  if limit = 0 then l else l.take limit.natAbs

/-- The cursor pipeline `find({}).skip(skip).limit(limit).sort("created_at", -1)`.
pymongo's `Cursor.skip` raises `ValueError("skip must be >= 0")` on a negative
argument; the server applies sort, then skip, then limit. -/
def mongoFind (store : List StoredDoc) (skip limit : Int) : Except String (List StoredDoc) :=
  if skip < 0 then .error "skip must be >= 0"
  else .ok (mongoLimit limit ((mongoSortDesc store).drop skip.toNat))

/-- Common body of the three list endpoints (src/main.py lines 207-241,
348-382, 439-473): clamp `limit` to 1000, run the cursor query, count the
whole collection, and shape the response; any exception inside the `try`
block is logged and turned into `HTTPException(500, detail)`. -/
def listEndpoint (detail : String) (store : Except String (List StoredDoc))
    (skip limit : Int) : Except HErr ListResponse :=
  match store with
  | .error _ => .error ⟨500, detail⟩
  | .ok entries =>
    let lim : Int := if limit > 1000 then 1000 else limit
    match mongoFind entries skip lim with
    | .error _ => .error ⟨500, detail⟩
    | .ok es => .ok ⟨es, entries.length, skip, lim, es.length⟩

/-- Models `get_all_waitlist` (src/main.py lines 348-382). -/
def get_all_waitlist (store : Except String (List StoredDoc)) (skip limit : Int) :
    Except HErr ListResponse :=
  listEndpoint "Failed to retrieve waitlist" store skip limit

/-- Models `get_all_contacts` (src/main.py lines 439-473). -/
def get_all_contacts (store : Except String (List StoredDoc)) (skip limit : Int) :
    Except HErr ListResponse :=
  listEndpoint "Failed to retrieve contacts" store skip limit

/-- Models `get_all_venue_applications` (src/main.py lines 207-241). -/
def get_all_venue_applications (store : Except String (List StoredDoc)) (skip limit : Int) :
    Except HErr ListResponse :=
  listEndpoint "Failed to retrieve applications" store skip limit

/-! ### Get-by-id endpoints (src/main.py lines 184-204 and 416-436) -/

/-- Models `get_venue_application`: parse the ObjectId outside any store
access (invalid id yields 400 before the store is touched); then
`find_one({"_id": oid})`; a missing document yields 404; a store exception
yields 500 with a fixed detail. -/
def get_venue_application (store : Except String (List StoredDoc))
    (application_id : String) : Except HErr StoredDoc :=
  match parseObjectId application_id with
  | none => .error ⟨400, "Invalid application ID format"⟩
  | some oid =>
    match store with
    | .error _ => .error ⟨500, "Failed to retrieve application"⟩
    | .ok docs =>
      match docs.find? (fun r => decide (r.oid = oid)) with
      | none => .error ⟨404, "Application not found"⟩
      | some r => .ok r

/-- Models `get_contact` (same shape as `get_venue_application`, with the
contact collection and its detail strings). -/
def get_contact (store : Except String (List StoredDoc)) (contact_id : String) :
    Except HErr StoredDoc :=
  match parseObjectId contact_id with
  | none => .error ⟨400, "Invalid contact ID format"⟩
  | some oid =>
    match store with
    | .error _ => .error ⟨500, "Failed to retrieve contact"⟩
    | .ok docs =>
      match docs.find? (fun r => decide (r.oid = oid)) with
      | none => .error ⟨404, "Contact not found"⟩
      | some r => .ok r

/-! ### Waitlist signup (src/main.py lines 296-334) -/

/-- A waitlist document: generated `_id`, stored (lowercased) email, and
`created_at`. -/
structure WEntry where
  wid : Nat
  email : String
  created_at : Int
deriving DecidableEq

/-- The success response of `submit_waitlist`. -/
structure SubmitResp where
  ok : Bool
  id : Nat
  message : String
deriving DecidableEq

/-- ASCII lowering of one character, as Python `str.lower()` acts on ASCII. -/
def lowerChar (c : Char) : Char :=
  if 'A' ≤ c ∧ c ≤ 'Z' then Char.ofNat (c.toNat + 32) else c

/-- Models `payload.email.lower()` (ASCII range; email addresses here are
ASCII). -/
def lowerStr (s : String) : String :=
  String.mk (s.data.map lowerChar)

/-- Models `submit_waitlist`: lowercase the email, `find_one` on it; if a
document exists return its id and insert nothing, otherwise insert one new
document (with the driver-generated id `newId`); a store exception yields
500 with a fixed detail. Returns the response together with the resulting
collection state. -/
def submit_waitlist (store : Except String (List WEntry)) (email : String)
    (newId : Nat) (now : Int) : Except HErr (SubmitResp × List WEntry) :=
  match store with
  | .error _ => .error ⟨500, "Failed to add to waitlist"⟩
  | .ok entries =>
    let e := lowerStr email
    match entries.find? (fun r => decide (r.email = e)) with
    | some existing => .ok (⟨true, existing.wid, "Already on waitlist"⟩, entries)
    | none => .ok (⟨true, newId, "Added to waitlist"⟩, entries ++ [⟨newId, e, now⟩])

/-! ### OSM importer (src/extract_openstreet.py)

`upsert_documents(col, docs)` builds one `UpdateOne(filter={"osm_type": ...,
"osm_id": ...}, update={"$set": d}, upsert=True)` per document and applies
them with `bulk_write`. Documents come from `element_to_document`, which
always sets every field below (the `except: continue` around op-building can
only fire on a `KeyError` for `osm_type`/`osm_id` and is therefore dead for
such documents, so each doc yields exactly one op). `$set` with the full
document rewrites every modelled field, so applying an op to a matched
record replaces it. `UpdateOne` matches at most one document: the first
match in the collection. `ordered=False` only affects error continuation;
ops are modelled as applied in list order. -/

/-- A venue document as built by `element_to_document`: the two external-key
fields (either of which may be `None` when the Overpass element lacks them)
and the remaining fields opaque. -/
structure OsmDoc where
  osm_type : Option String
  osm_id : Option Int
  rest : String
deriving DecidableEq

/-- The upsert key `{"osm_type": d["osm_type"], "osm_id": d["osm_id"]}`. -/
def osmKey (d : OsmDoc) : Option String × Option Int :=
  (d.osm_type, d.osm_id)

/-- One `UpdateOne(filter=key(d), update={"$set": d}, upsert=True)`: replace
the first key-matching record (the `$set` covers every field), or append the
document when no record matches. -/
def upsertOne : List OsmDoc → OsmDoc → List OsmDoc
  | [], d => [d]
  | r :: rs, d => if osmKey r = osmKey d then d :: rs else r :: upsertOne rs d

/-- The store state after `bulk_write` of the ops for `docs`, in order. -/
def applyUpserts (store : List OsmDoc) : List OsmDoc → List OsmDoc
  | [] => store
  | d :: ds => applyUpserts (upsertOne store d) ds

/-- Contribution of one op to `upserted_count + modified_count`: 1 when it
inserts, 1 when it modifies a matched record (a `$set` that changes
nothing is matched but not modified), 0 otherwise. -/
def upsertWrites : List OsmDoc → OsmDoc → Nat
  | [], _ => 1
  | r :: rs, d => if osmKey r = osmKey d then (if r = d then 0 else 1) else upsertWrites rs d

/-- Sum of the write counts of the ops, applied in order. -/
def countUpsertWrites (store : List OsmDoc) : List OsmDoc → Nat
  | [] => 0
  | d :: ds => upsertWrites store d + countUpsertWrites (upsertOne store d) ds

/-- Models `upsert_documents` (src/extract_openstreet.py lines 117-136):
returns the resulting collection state together with the returned count
`(result.upserted_count or 0) + (result.modified_count or 0)`. -/
def upsert_documents (col : List OsmDoc) (docs : List OsmDoc) : List OsmDoc × Nat :=
  (applyUpserts col docs, countUpsertWrites col docs)

/-- First record holding the given external key (models the match of an
`UpdateOne` filter). -/
def findByKey (s : List OsmDoc) (k : Option String × Option Int) : Option OsmDoc :=
  s.find? (fun r => decide (osmKey r = k))

/-- Last document in the batch holding the given external key. -/
def lastWith (k : Option String × Option Int) : List OsmDoc → Option OsmDoc
  | [] => none
  | d :: ds =>
    match lastWith k ds with
    | some x => some x
    | none => if osmKey d = k then some d else none

/-- The collection invariant maintained by the importer: no two records share
an external key. -/
def NoDupKeys (s : List OsmDoc) : Prop :=
  s.Pairwise (fun a b => osmKey a ≠ osmKey b)

/-! ### clean_markdown_link (src/extract_openstreet.py lines 29-39)

The function is `re.match(r"\[.*?\]\((.*?)\)", value)` followed, on a match,
by stripping a leading `"mailto:"` from group 1. Since `re.match` anchors at
the start and `.` does not match a newline, the regex matches exactly when
the string starts with `'['`, followed (without an intervening newline) by
the two-character marker `"]("`, followed (again newline-free) by a `')'`.
Lazy matching makes the first `"]("` and then the first `')'` the ones used;
committing to the first `"]("` is extensionally equal to the backtracking
engine, because when no `')'` occurs between the first `"]("` and the first
newline (or the end), the same holds for every later `"]("` reachable
without crossing that newline. -/

/-- Python values as far as `clean_markdown_link` distinguishes them: a
string (as its character list) or any non-string value (opaque). -/
inductive PyValue where
  | vstr (s : List Char)
  | vother (n : Nat)
deriving DecidableEq

/-- Scan for the capture group `(.*?)\)`: the characters up to the first
`')'`, failing at a newline or the end of input. -/
def scanGroup : List Char → Option (List Char)
  | [] => none
  | c :: rest =>
    if c = ')' then some []
    else if c = '\n' then none
    else Option.map (fun g => c :: g) (scanGroup rest)

/-- Scan for the marker `"]("` (the lazy `.*?\]\(`), failing at a newline,
then hand over to the group scan. -/
def scanAfterBracket : List Char → Option (List Char)
  | [] => none
  | c :: rest =>
    if c = ']' ∧ rest.head? = some '(' then scanGroup rest.tail
    else if c = '\n' then none
    else scanAfterBracket rest

/-- The whole regex `\[.*?\]\((.*?)\)` under `re.match` (anchored at the
start): `some` group 1 on a match, `none` otherwise. -/
def matchMdLink : List Char → Option (List Char)
  | [] => none
  | c :: rest => if c = '[' then scanAfterBracket rest else none

/-- Models `inner.startswith("mailto:")` followed by `inner[len("mailto:"):]`. -/
def stripMailto : List Char → List Char
  | 'm' :: 'a' :: 'i' :: 'l' :: 't' :: 'o' :: ':' :: rest => rest
  | l => l

/-- Models `clean_markdown_link`: non-strings pass through; a string is
replaced by its (mailto-stripped) capture group when the regex matches, and
passes through otherwise. -/
def clean_markdown_link : PyValue → PyValue
  | .vother n => .vother n
  | .vstr s =>
    match matchMdLink s with
    | some inner => .vstr (stripMailto inner)
    | none => .vstr s

/-- True when the character list contains the two-character marker `"]("`. -/
def hasBP : List Char → Bool
  | [] => false
  | c :: rest => if c = ']' ∧ rest.head? = some '(' then true else hasBP rest

/-! ### Spec-modelled venue-survey aggregator

Modelled from the spec: the Coverage Aggregator of spec.md (sections 3, 4.1)
— the venue/survey stores, `list_zones`, `summary` and `submit_survey` — is
not part of the code under src/ (only the spec describes it), so it is
modelled here from the spec's words. Venues carry the geographic hierarchy
(absent values are bucketed under the sentinel "Unknown"), a mutable
`last_surveyed_at`, and opaque attributes; a survey is one record per venue,
upserted by venue identifier; `summary` computes total / surveyed /
coverage with coverage = surveyed / total x 100 and 0 when total is 0
(surveyed counted, in the simpler variant the spec names, as venues with a
non-null `last_surveyed_at`). -/

/-- Modelled from the spec: a venue record (spec.md section 3, "Venue"). -/
structure Venue where
  vid : String
  city : Option String
  zone : Option String
  postcode : Option String
  last_surveyed_at : Option Nat
  priority : Int
  attrs : String
deriving DecidableEq

/-- Modelled from the spec: stored survey status (`not_started` is never a
stored value; absence of a record means `not_started`). -/
inductive SurveyStatus where
  | in_progress
  | completed
deriving DecidableEq

/-- Modelled from the spec: a survey record, keyed by venue identifier. -/
structure Survey where
  venue_id : String
  surveyor : String
  status : SurveyStatus
  answers : String
deriving DecidableEq

/-- Absent hierarchy values are bucketed under the sentinel "Unknown". -/
def bucket (o : Option String) : String := o.getD "Unknown"

/-- A venue counts as surveyed (simpler two-level variant of spec.md section
3) when `last_surveyed_at` is non-null. -/
def surveyedB (v : Venue) : Bool := v.last_surveyed_at.isSome

/-- Modelled from the spec: `list_zones(city)` — filter venues to the city,
group by zone, count total and surveyed per zone, sorted ascending by zone
name. An unknown city therefore filters everything out. -/
def list_zones (venues : List Venue) (city : String) : List (String × Nat × Nat) :=
  let vs := venues.filter (fun v => decide (bucket v.city = city))
  let zs := ((vs.map (fun v => bucket v.zone)).dedup).insertionSort (fun a b => a ≤ b)
  zs.map (fun z =>
    (z, (vs.filter (fun v => decide (bucket v.zone = z))).length,
        (vs.filter (fun v => decide (bucket v.zone = z) && surveyedB v)).length))

/-- The roll-up triple `{total, surveyed, coverage}` (coverage as an exact
rational, standing for the float of the spec). -/
structure Rollup where
  total : Nat
  surveyed : Nat
  coverage : ℚ
deriving DecidableEq

/-- Modelled from the spec: `summary(city?)` — single-level aggregate over
all venues optionally filtered by city, with coverage = surveyed / total x
100, defined as 0 when total is 0. -/
def summary (venues : List Venue) (city : Option String) : Rollup :=
  let vs := match city with
    | none => venues
    | some c => venues.filter (fun v => decide (bucket v.city = c))
  let total := vs.length
  let surveyed := (vs.filter surveyedB).length
  ⟨total, surveyed, if total = 0 then 0 else (surveyed : ℚ) / (total : ℚ) * 100⟩

/-- Upsert a survey by venue identifier: overwrite the existing record for
this venue in place, or create one. -/
def upsertSurvey : List Survey → Survey → List Survey
  | [], s => [s]
  | r :: rs, s => if r.venue_id = s.venue_id then s :: rs else r :: upsertSurvey rs s

/-- The denormalized side effect of a submission: set the venue's
`last_surveyed_at` to the current time, unconditionally. -/
def touch_venue (venues : List Venue) (vid : String) (now : Nat) : List Venue :=
  venues.map (fun v => if v.vid = vid then { v with last_surveyed_at := some now } else v)

/-- Modelled from the spec: `submit_survey(venue_id, surveyor, status,
answers)` — fails with `NotFound` when `venue_id` resolves to no venue;
otherwise upserts the survey by venue identifier (last write wins, no merge)
and touches the venue's `last_surveyed_at`. Returns the resulting survey and
venue stores. -/
def submit_survey (venues : List Venue) (surveys : List Survey) (venue_id surveyor : String)
    (status : SurveyStatus) (answers : String) (now : Nat) :
    Except HErr (List Survey × List Venue) :=
  if venues.any (fun v => decide (v.vid = venue_id)) then
    .ok (upsertSurvey surveys ⟨venue_id, surveyor, status, answers⟩,
         touch_venue venues venue_id now)
  else .error ⟨404, "Venue not found"⟩

/-- The survey-store invariant: at most one record per venue identifier. -/
def NoDupSurveyIds (s : List Survey) : Prop :=
  s.Pairwise (fun a b => a.venue_id ≠ b.venue_id)

/-! ## Claim theorems -/

/-- C2: for every identifier string that is not a well-formed ObjectId — not
24 case-insensitive hexadecimal characters, the `bson.ObjectId` validity rule
on a `str` — both get-by-id operations fail with HTTP 400 and their
invalid-format detail, and the store is neither queried nor modified: the
parse fails, the response is independent of the store state (including an
unreachable store), and the source handlers contain no write call.
Conversely, a well-formed identifier never produces the invalid-format 400 on
either endpoint: the parse alone, before any store access, decides that
path. -/
theorem get_by_id_rejects_invalid_identifier_before_store (idstr : String) :
    (¬ (idstr.data.length = 24 ∧ idstr.data.all isHexChar) →
      parseObjectId idstr = none ∧
      (∀ s₁ s₂ : Except String (List StoredDoc),
        get_venue_application s₁ idstr = get_venue_application s₂ idstr) ∧
      (∀ s, get_venue_application s idstr = .error ⟨400, "Invalid application ID format"⟩) ∧
      (∀ s₁ s₂ : Except String (List StoredDoc), get_contact s₁ idstr = get_contact s₂ idstr) ∧
      (∀ s, get_contact s idstr = .error ⟨400, "Invalid contact ID format"⟩)) ∧
    ((idstr.data.length = 24 ∧ idstr.data.all isHexChar) →
      ∀ s : Except String (List StoredDoc),
        get_venue_application s idstr ≠ .error ⟨400, "Invalid application ID format"⟩ ∧
        get_contact s idstr ≠ .error ⟨400, "Invalid contact ID format"⟩) := by
  constructor
  · intro h
    have hparse : parseObjectId idstr = none := by rw [parseObjectId, if_neg h]
    exact ⟨hparse, fun s₁ s₂ => by simp [get_venue_application, hparse],
      fun s => by simp [get_venue_application, hparse],
      fun s₁ s₂ => by simp [get_contact, hparse],
      fun s => by simp [get_contact, hparse]⟩
  · intro hval s
    have hparse : parseObjectId idstr =
        some (idstr.data.foldl (fun a c => a * 16 + hexDigitVal c) 0) := by
      rw [parseObjectId, if_pos hval]
    constructor
    · rcases s with e | docs
      · simp [get_venue_application, hparse]
      · rcases hf : docs.find?
            (fun r => decide (r.oid = idstr.data.foldl (fun a c => a * 16 + hexDigitVal c) 0))
          with _ | r <;> simp [get_venue_application, hparse, hf]
    · rcases s with e | docs
      · simp [get_contact, hparse]
      · rcases hf : docs.find?
            (fun r => decide (r.oid = idstr.data.foldl (fun a c => a * 16 + hexDigitVal c) 0))
          with _ | r <;> simp [get_contact, hparse, hf]

/-- Witness for C2 at the concrete malformed identifier "not-an-objectid"
(rejected with 400 on both endpoints, also against an unreachable store) and
the concrete well-formed identifier of all zeros (which never takes the
invalid-format path, even against an unreachable store). -/
theorem get_by_id_rejects_invalid_identifier_witness :
    get_venue_application (.ok []) "not-an-objectid" =
      .error ⟨400, "Invalid application ID format"⟩ ∧
    get_contact (.error "store down") "not-an-objectid" =
      .error ⟨400, "Invalid contact ID format"⟩ ∧
    get_venue_application (.error "store down") "000000000000000000000000" ≠
      .error ⟨400, "Invalid application ID format"⟩ :=
  ⟨((get_by_id_rejects_invalid_identifier_before_store "not-an-objectid").1
      (by decide)).2.2.1 _,
   ((get_by_id_rejects_invalid_identifier_before_store "not-an-objectid").1
      (by decide)).2.2.2.2 _,
   (((get_by_id_rejects_invalid_identifier_before_store "000000000000000000000000").2
      (by decide)) _).1⟩

/-- C3: for every well-formed identifier that resolves to no stored record,
the get-by-id operations fail with HTTP 404 (a client error, produced by a
single query — the embedding performs exactly one `find_one`, with no retry
construct), and they never return a success payload unless the returned
record is actually in the store under that identifier. -/
theorem get_by_id_missing_record_is_not_found
    (idstr : String) (oid : Nat) (h : parseObjectId idstr = some oid) :
    (∀ docs : List StoredDoc, docs.find? (fun r => decide (r.oid = oid)) = none →
      get_venue_application (.ok docs) idstr = .error ⟨404, "Application not found"⟩ ∧
      get_contact (.ok docs) idstr = .error ⟨404, "Contact not found"⟩) ∧
    (∀ (store : Except String (List StoredDoc)) (r : StoredDoc),
      get_venue_application store idstr = .ok r →
      ∃ docs, store = .ok docs ∧ r ∈ docs ∧ r.oid = oid) ∧
    (∀ (store : Except String (List StoredDoc)) (r : StoredDoc),
      get_contact store idstr = .ok r →
      ∃ docs, store = .ok docs ∧ r ∈ docs ∧ r.oid = oid) := by
  refine ⟨fun docs hfind => ?_, fun store r hok => ?_, fun store r hok => ?_⟩
  · constructor <;> simp [get_venue_application, get_contact, h, hfind]
  · rcases store with e | docs
    · simp [get_venue_application, h] at hok
    · rcases hfind : docs.find? (fun x => decide (x.oid = oid)) with _ | r₀ <;>
        simp [get_venue_application, h, hfind] at hok
      subst hok
      have hp := List.find?_some hfind
      rw [decide_eq_true_eq] at hp
      exact ⟨docs, rfl, List.mem_of_find?_eq_some hfind, hp⟩
  · rcases store with e | docs
    · simp [get_contact, h] at hok
    · rcases hfind : docs.find? (fun x => decide (x.oid = oid)) with _ | r₀ <;>
        simp [get_contact, h, hfind] at hok
      subst hok
      have hp := List.find?_some hfind
      rw [decide_eq_true_eq] at hp
      exact ⟨docs, rfl, List.mem_of_find?_eq_some hfind, hp⟩

/-- Witness for C3 at the concrete well-formed identifier of all zeros and
an empty store. -/
theorem get_by_id_missing_record_witness :
    get_venue_application (.ok []) "000000000000000000000000" =
      .error ⟨404, "Application not found"⟩ ∧
    get_contact (.ok []) "000000000000000000000000" =
      .error ⟨404, "Contact not found"⟩ :=
  (get_by_id_missing_record_is_not_found "000000000000000000000000" 0 (by decide)).1 [] rfl

/-- C5: an unexpected store failure during a read (here the venue-application
list read: a failing driver call, or the `ValueError` pymongo raises inside
the `try` block on a negative skip) or during a write (the waitlist insert)
is surfaced as HTTP 500 with the endpoint's fixed detail string — the
response carries no part of the internal failure message — and a failure is
never converted into a success payload. -/
theorem unexpected_failures_surface_as_fixed_500
    (e : String) (skip limit : Int) :
    get_all_venue_applications (.error e) skip limit =
      .error ⟨500, "Failed to retrieve applications"⟩ ∧
    (∀ docs : List StoredDoc, skip < 0 →
      get_all_venue_applications (.ok docs) skip limit =
        .error ⟨500, "Failed to retrieve applications"⟩) ∧
    (∀ (email : String) (newId : Nat) (now : Int),
      submit_waitlist (.error e) email newId now =
        .error ⟨500, "Failed to add to waitlist"⟩) ∧
    (∀ r, get_all_venue_applications (.error e) skip limit ≠ .ok r) := by
  refine ⟨rfl, fun docs hneg => ?_, fun email newId now => rfl, fun r => by simp [get_all_venue_applications, listEndpoint]⟩
  simp [get_all_venue_applications, listEndpoint, mongoFind, hneg]

/-- Witness for C5 at a concrete failure message and a concrete negative
skip. -/
theorem unexpected_failures_surface_as_fixed_500_witness :
    get_all_venue_applications (.error "connection reset") (-1) 5 =
      .error ⟨500, "Failed to retrieve applications"⟩ ∧
    get_all_venue_applications (.ok []) (-1) 5 =
      .error ⟨500, "Failed to retrieve applications"⟩ :=
  ⟨(unexpected_failures_surface_as_fixed_500 "connection reset" (-1) 5).1,
   (unexpected_failures_surface_as_fixed_500 "connection reset" (-1) 5).2.1 [] (by decide)⟩

/-- C8: waitlist signup is idempotent on the lowercased email: when a record
with that lowercased email exists, the response carries ok and the (first)
existing record's id and the store is returned unchanged; otherwise exactly
one new record is appended, whose stored email is the lowercased input. -/
theorem submit_waitlist_idempotent_on_lowercased_email
    (entries : List WEntry) (email : String) (newId : Nat) (now : Int) :
    ((∃ r ∈ entries, r.email = lowerStr email) →
      ∃ r ∈ entries, r.email = lowerStr email ∧
        submit_waitlist (.ok entries) email newId now =
          .ok (⟨true, r.wid, "Already on waitlist"⟩, entries)) ∧
    ((∀ r ∈ entries, r.email ≠ lowerStr email) →
      submit_waitlist (.ok entries) email newId now =
        .ok (⟨true, newId, "Added to waitlist"⟩, entries ++ [⟨newId, lowerStr email, now⟩])) := by
  constructor
  · intro hex
    have hsome : (entries.find? (fun r => decide (r.email = lowerStr email))).isSome := by
      rw [List.find?_isSome]
      rcases hex with ⟨r, hr, he⟩
      exact ⟨r, hr, by simp [he]⟩
    rcases hfind : entries.find? (fun r => decide (r.email = lowerStr email)) with _ | r₀
    · rw [hfind] at hsome; simp at hsome
    · have hmem := List.mem_of_find?_eq_some hfind
      have hp := List.find?_some hfind
      rw [decide_eq_true_eq] at hp
      exact ⟨r₀, hmem, hp, by simp [submit_waitlist, hfind]⟩
  · intro hnone
    have hfind : entries.find? (fun r => decide (r.email = lowerStr email)) = none :=
      List.find?_eq_none.mpr fun r hr => by simp [hnone r hr]
    simp [submit_waitlist, hfind]

/-- Witness for C8: an email already present (up to lowercasing) returns the
existing id and leaves the store unchanged. -/
theorem submit_waitlist_idempotent_witness :
    ∃ r ∈ [(⟨7, "a@b.com", 0⟩ : WEntry)], r.email = lowerStr "A@B.com" ∧
      submit_waitlist (.ok [⟨7, "a@b.com", 0⟩]) "A@B.com" 99 5 =
        .ok (⟨true, r.wid, "Already on waitlist"⟩, [⟨7, "a@b.com", 0⟩]) :=
  (submit_waitlist_idempotent_on_lowercased_email [⟨7, "a@b.com", 0⟩] "A@B.com" 99 5).1
    (by decide)

/-- Coverage arithmetic: with surveyed at most total, the guarded percentage
is within bounds. -/
theorem coverage_if_bounds (s t : Nat) (hst : s ≤ t) :
    0 ≤ (if t = 0 then (0 : ℚ) else (s : ℚ) / (t : ℚ) * 100) ∧
    (if t = 0 then (0 : ℚ) else (s : ℚ) / (t : ℚ) * 100) ≤ 100 := by
  split
  · norm_num
  · rename_i ht
    have htpos : (0 : ℚ) < (t : ℚ) := by
      have := Nat.pos_of_ne_zero ht
      exact_mod_cast this
    have hdiv : (s : ℚ) / (t : ℚ) ≤ 1 :=
      (div_le_one htpos).mpr (by exact_mod_cast hst)
    have hdiv0 : (0 : ℚ) ≤ (s : ℚ) / (t : ℚ) := by positivity
    constructor
    · positivity
    · calc (s : ℚ) / (t : ℚ) * 100 ≤ 1 * 100 :=
            mul_le_mul_of_nonneg_right hdiv (by norm_num)
        _ = 100 := by norm_num

/-- C6: for every venue set and optional city filter, the summary coverage is
in [0, 100], is exactly 0 when the total is 0 (no division by zero occurs:
the 0 branch is taken), and otherwise equals surveyed / total x 100. -/
theorem summary_coverage_in_bounds (venues : List Venue) (city : Option String) :
    0 ≤ (summary venues city).coverage ∧
    (summary venues city).coverage ≤ 100 ∧
    ((summary venues city).total = 0 → (summary venues city).coverage = 0) ∧
    ((summary venues city).total ≠ 0 →
      (summary venues city).coverage =
        ((summary venues city).surveyed : ℚ) / ((summary venues city).total : ℚ) * 100) := by
  rcases city with _ | c <;>
  · simp only [summary]
    refine ⟨(coverage_if_bounds _ _ (List.length_filter_le _ _)).1,
      (coverage_if_bounds _ _ (List.length_filter_le _ _)).2, fun ht => by simp [ht], fun ht => by simp [ht]⟩

/-- Witness for C6 at a concrete venue set: one of three Bristol venues
surveyed gives coverage 100/3, which the theorem bounds inside [0, 100]. -/
theorem summary_coverage_in_bounds_witness :
    0 ≤ (summary [⟨"v1", some "Bristol", none, none, some 3, 5, ""⟩,
          ⟨"v2", some "Bristol", none, none, none, 2, ""⟩,
          ⟨"v3", some "Bristol", none, none, none, 2, ""⟩] (some "Bristol")).coverage ∧
    (summary [⟨"v1", some "Bristol", none, none, some 3, 5, ""⟩,
          ⟨"v2", some "Bristol", none, none, none, 2, ""⟩,
          ⟨"v3", some "Bristol", none, none, none, 2, ""⟩] (some "Bristol")).coverage ≤ 100 :=
  ⟨(summary_coverage_in_bounds _ (some "Bristol")).1,
   (summary_coverage_in_bounds _ (some "Bristol")).2.1⟩

/-- C4 counterexample: a query whose filter matches no records (the store is
empty) but whose skip is negative does not return an empty result — pymongo's
`Cursor.skip` raises inside the handler's `try` block, and the endpoint fails
with HTTP 500. -/
theorem no_match_query_negative_skip_counterexample :
    get_all_waitlist (.ok []) (-1) 100 = .error ⟨500, "Failed to retrieve waitlist"⟩ := by
  decide

/-- C4 (amended to non-negative skip): for every query with non-negative skip
whose filter matches no records — an empty store for the waitlist read, or an
unknown city for the zone roll-up — the read returns an empty, zero-valued
result (empty sequence, total 0) rather than an error. -/
theorem no_match_queries_return_empty (skip limit : Int) (hskip : 0 ≤ skip) :
    get_all_waitlist (.ok []) skip limit =
      .ok ⟨[], 0, skip, if limit > 1000 then 1000 else limit, 0⟩ ∧
    (∀ (venues : List Venue) (city : String),
      (∀ v ∈ venues, bucket v.city ≠ city) → list_zones venues city = []) := by
  constructor
  · have hns : ¬ skip < 0 := not_lt.mpr hskip
    simp only [get_all_waitlist, listEndpoint, mongoFind, hns, if_false, mongoSortDesc]
    have hdrop : (List.insertionSort createdDesc []).drop skip.toNat = [] := by simp
    rw [hdrop]
    have hlim : ∀ lim : Int, mongoLimit lim [] = [] := by
      intro lim; unfold mongoLimit; split <;> simp
    simp [hlim]
  · intro venues city hcity
    have hfilter : venues.filter (fun v => decide (bucket v.city = city)) = [] :=
      List.filter_eq_nil_iff.mpr fun v hv => by simp [hcity v hv]
    simp [list_zones, hfilter]

/-- Witness for C4 at concrete inputs: skip 0, limit 7, empty store; and a
one-venue store queried for a city it does not contain. -/
theorem no_match_queries_return_empty_witness :
    get_all_waitlist (.ok []) 0 7 = .ok ⟨[], 0, 0, 7, 0⟩ ∧
    list_zones [⟨"v1", some "London", some "Soho", none, none, 1, ""⟩] "Bristol" = [] :=
  ⟨((no_match_queries_return_empty 0 7 (by decide)).1 : _),
   (no_match_queries_return_empty 0 7 (by decide)).2
     [⟨"v1", some "London", some "Soho", none, none, 1, ""⟩] "Bristol" (by decide)⟩

/-- The cursor output is a sublist of the sorted store. -/
theorem mongoLimit_sublist (lim : Int) (l : List StoredDoc) :
    List.Sublist (mongoLimit lim l) l := by
  unfold mongoLimit
  split
  · exact List.Sublist.refl l
  · exact List.take_sublist _ l

/-- For a positive limit, the cursor returns at most that many documents. -/
theorem mongoLimit_length_le (lim : Int) (hl : 1 ≤ lim) (l : List StoredDoc) :
    (mongoLimit lim l).length ≤ lim.toNat := by
  unfold mongoLimit
  have hne : lim ≠ 0 := by omega
  rw [if_neg hne]
  have : lim.natAbs = lim.toNat := by omega
  rw [List.length_take, this]
  exact min_le_left _ _

/-- C9 counterexample: a requested limit of 0 is not clamped and MongoDB
treats `limit(0)` as "no limit", so the endpoint returns more entries than
the requested limit — here 1 entry against a limit of 0. -/
theorem list_endpoint_limit_zero_counterexample :
    get_all_waitlist (.ok [⟨1, 0, "a"⟩]) 0 0 = .ok ⟨[⟨1, 0, "a"⟩], 1, 0, 0, 1⟩ ∧
    ¬ ((⟨[⟨1, 0, "a"⟩], 1, 0, 0, 1⟩ : ListResponse).items.length ≤ (0 : Int).toNat) := by
  constructor
  · decide
  · decide

/-- C9 (amended to non-negative skip and positive limit): each of the three
list endpoints clamps a limit above 1000 down to 1000, returns at most
min(limit, 1000) entries sorted descending by `created_at`, and reports
`returned` equal to the length of the returned list and `total` equal to the
full collection count. (A requested limit of 0 means "no limit" to MongoDB,
and a negative skip produces a 500 error.) -/
theorem list_endpoints_clamp_sort_and_count
    (store : List StoredDoc) (skip limit : Int) (hs : 0 ≤ skip) (hl : 1 ≤ limit) :
    ∃ resp : ListResponse,
      get_all_waitlist (.ok store) skip limit = .ok resp ∧
      get_all_contacts (.ok store) skip limit = .ok resp ∧
      get_all_venue_applications (.ok store) skip limit = .ok resp ∧
      resp.returned = resp.items.length ∧
      resp.total = store.length ∧
      resp.limit = min limit 1000 ∧
      resp.items.length ≤ (min limit 1000).toNat ∧
      List.Sorted createdDesc resp.items := by
  have hns : ¬ skip < 0 := not_lt.mpr hs
  set lim : Int := if limit > 1000 then 1000 else limit with hlim
  have hlim1 : 1 ≤ lim := by rw [hlim]; split <;> omega
  have hlimmin : lim = min limit 1000 := by rw [hlim, min_def]; split <;> split <;> omega
  set es : List StoredDoc := mongoLimit lim ((mongoSortDesc store).drop skip.toNat) with hes
  refine ⟨⟨es, store.length, skip, lim, es.length⟩, ?_, ?_, ?_, rfl, rfl, hlimmin, ?_, ?_⟩
  · simp [get_all_waitlist, listEndpoint, mongoFind, hns, ← hlim, ← hes]
  · simp [get_all_contacts, listEndpoint, mongoFind, hns, ← hlim, ← hes]
  · simp [get_all_venue_applications, listEndpoint, mongoFind, hns, ← hlim, ← hes]
  · calc es.length ≤ lim.toNat := mongoLimit_length_le lim hlim1 _
      _ = (min limit 1000).toNat := by rw [hlimmin]
  · have hsorted : List.Sorted createdDesc (mongoSortDesc store) :=
      List.sorted_insertionSort createdDesc store
    have hsub : List.Sublist es (mongoSortDesc store) :=
      (mongoLimit_sublist lim _).trans (List.drop_sublist _ _)
    exact List.Pairwise.sublist hsub hsorted

/-- Witness for C9 at a concrete two-document store, skip 0 and the
over-large limit 2001 (clamped to 1000). -/
theorem list_endpoints_clamp_sort_and_count_witness :
    ∃ resp : ListResponse,
      get_all_waitlist (.ok [⟨1, 5, "a"⟩, ⟨2, 9, "b"⟩]) 0 2001 = .ok resp ∧
      get_all_contacts (.ok [⟨1, 5, "a"⟩, ⟨2, 9, "b"⟩]) 0 2001 = .ok resp ∧
      get_all_venue_applications (.ok [⟨1, 5, "a"⟩, ⟨2, 9, "b"⟩]) 0 2001 = .ok resp ∧
      resp.returned = resp.items.length ∧
      resp.total = [(⟨1, 5, "a"⟩ : StoredDoc), ⟨2, 9, "b"⟩].length ∧
      resp.limit = min 2001 1000 ∧
      resp.items.length ≤ ((min 2001 1000 : Int)).toNat ∧
      List.Sorted createdDesc resp.items :=
  list_endpoints_clamp_sort_and_count [⟨1, 5, "a"⟩, ⟨2, 9, "b"⟩] 0 2001 (by decide) (by decide)

/-- Touching a venue's survey timestamp does not change which venue
identifiers exist. -/
theorem touch_venue_any (venues : List Venue) (k : String) (n : Nat) (vid : String) :
    (touch_venue venues k n).any (fun v => decide (v.vid = vid)) =
      venues.any (fun v => decide (v.vid = vid)) := by
  rw [touch_venue, List.any_map]
  congr 1
  funext v
  by_cases h : v.vid = k <;> simp [h]

/-- Upserting the same survey record twice leaves the store exactly as after
the first upsert. -/
theorem upsertSurvey_twice (s : List Survey) (r : Survey) :
    upsertSurvey (upsertSurvey s r) r = upsertSurvey s r := by
  induction s with
  | nil => simp [upsertSurvey]
  | cons c cs ih =>
    by_cases h : c.venue_id = r.venue_id
    · simp [upsertSurvey, h]
    · simp [upsertSurvey, h, ih]

/-- On a store with at most one record per venue, upserting leaves exactly
one record for the upserted venue. -/
theorem upsertSurvey_count (s : List Survey) (r : Survey) (h : NoDupSurveyIds s) :
    ((upsertSurvey s r).filter (fun x => decide (x.venue_id = r.venue_id))).length = 1 := by
  induction s with
  | nil => simp [upsertSurvey]
  | cons c cs ih =>
    rw [NoDupSurveyIds, List.pairwise_cons] at h
    obtain ⟨hhead, htail⟩ := h
    by_cases hc : c.venue_id = r.venue_id
    · have hnone : cs.filter (fun x => decide (x.venue_id = r.venue_id)) = [] :=
        List.filter_eq_nil_iff.mpr fun b hb => by
          simp only [decide_eq_true_eq]
          intro hb2
          exact hhead b hb (hc.trans hb2.symm)
      simp [upsertSurvey, hc, hnone]
    · simp only [upsertSurvey, if_neg hc]
      rw [List.filter_cons_of_neg (by simp [hc])]
      exact ih htail

/-- After an upsert, the first record found for the venue is the upserted
record. -/
theorem upsertSurvey_find (s : List Survey) (r : Survey) :
    (upsertSurvey s r).find? (fun x => decide (x.venue_id = r.venue_id)) = some r := by
  induction s with
  | nil => simp [upsertSurvey]
  | cons c cs ih =>
    by_cases h : c.venue_id = r.venue_id
    · simp [upsertSurvey, h]
    · simp only [upsertSurvey, if_neg h]
      rw [List.find?_cons_of_neg _ (by simp [h])]
      exact ih

/-- C7 (spec-modelled): submit_survey fails with NotFound when the venue
identifier resolves to no venue; otherwise, calling it twice with identical
arguments succeeds both times and yields exactly one survey record for the
venue — the survey store after the second call equals the store after the
first, holding precisely the submitted content. -/
theorem submit_survey_notfound_and_idempotent
    (venues : List Venue) (surveys : List Survey) (vid sv : String)
    (st : SurveyStatus) (ans : String) (now1 now2 : Nat)
    (hnd : NoDupSurveyIds surveys) :
    ((∀ v ∈ venues, v.vid ≠ vid) →
      submit_survey venues surveys vid sv st ans now1 = .error ⟨404, "Venue not found"⟩) ∧
    ((∃ v ∈ venues, v.vid = vid) →
      ∃ s1 vs1, submit_survey venues surveys vid sv st ans now1 = .ok (s1, vs1) ∧
        submit_survey vs1 s1 vid sv st ans now2 = .ok (s1, touch_venue vs1 vid now2) ∧
        (s1.filter (fun x => decide (x.venue_id = vid))).length = 1 ∧
        s1.find? (fun x => decide (x.venue_id = vid)) = some ⟨vid, sv, st, ans⟩) := by
  constructor
  · intro hnone
    have hany : venues.any (fun v => decide (v.vid = vid)) = false := by
      rw [List.any_eq_false]
      intro v hv
      simp [hnone v hv]
    simp [submit_survey, hany]
  · intro hex
    have hany : venues.any (fun v => decide (v.vid = vid)) = true := by
      rw [List.any_eq_true]
      rcases hex with ⟨v, hv, he⟩
      exact ⟨v, hv, by simp [he]⟩
    refine ⟨upsertSurvey surveys ⟨vid, sv, st, ans⟩, touch_venue venues vid now1,
      by simp [submit_survey, hany], ?_, ?_, ?_⟩
    · have hany2 : (touch_venue venues vid now1).any (fun v => decide (v.vid = vid)) = true :=
        (touch_venue_any venues vid now1 vid).trans hany
      simp [submit_survey, hany2, upsertSurvey_twice]
    · exact upsertSurvey_count surveys ⟨vid, sv, st, ans⟩ hnd
    · exact upsertSurvey_find surveys ⟨vid, sv, st, ans⟩

/-- Witness for C7: one Bristol venue, an empty survey store, two submissions
of the same completed survey. -/
theorem submit_survey_idempotent_witness :
    ∃ s1 vs1,
      submit_survey [⟨"v1", some "Bristol", none, none, none, 5, ""⟩] [] "v1" "sam"
          .completed "fine" 10 = .ok (s1, vs1) ∧
      submit_survey vs1 s1 "v1" "sam" .completed "fine" 11 =
        .ok (s1, touch_venue vs1 "v1" 11) ∧
      (s1.filter (fun x => decide (x.venue_id = "v1"))).length = 1 ∧
      s1.find? (fun x => decide (x.venue_id = "v1")) = some ⟨"v1", "sam", .completed, "fine"⟩ :=
  (submit_survey_notfound_and_idempotent [⟨"v1", some "Bristol", none, none, none, 5, ""⟩]
    [] "v1" "sam" .completed "fine" 10 11 (by simp [NoDupSurveyIds])).2 (by decide)

/-! ### Lemmas about the OSM upsert -/

/-- After one upsert the first record under the document's own key is that
document. -/
theorem findByKey_upsertOne_self (s : List OsmDoc) (d : OsmDoc) :
    findByKey (upsertOne s d) (osmKey d) = some d := by
  induction s with
  | nil =>
    show List.find? (fun r => decide (osmKey r = osmKey d)) [d] = some d
    rw [List.find?_cons_of_pos _ (by simp)]
  | cons r rs ih =>
    by_cases h : osmKey r = osmKey d
    · show findByKey (if osmKey r = osmKey d then d :: rs else r :: upsertOne rs d) _ = _
      rw [if_pos h]
      show List.find? (fun x => decide (osmKey x = osmKey d)) (d :: rs) = some d
      rw [List.find?_cons_of_pos _ (by simp)]
    · show findByKey (if osmKey r = osmKey d then d :: rs else r :: upsertOne rs d) _ = _
      rw [if_neg h]
      show List.find? (fun x => decide (osmKey x = osmKey d)) (r :: upsertOne rs d) = some d
      rw [List.find?_cons_of_neg _ (by simp [h])]
      exact ih

/-- An upsert does not change lookups under any other key. -/
theorem findByKey_upsertOne_other (s : List OsmDoc) (d : OsmDoc)
    (k : Option String × Option Int) (hk : k ≠ osmKey d) :
    findByKey (upsertOne s d) k = findByKey s k := by
  have hdk : ¬ (osmKey d = k) := fun h => hk h.symm
  induction s with
  | nil =>
    show List.find? (fun r => decide (osmKey r = k)) [d] = List.find? _ []
    rw [List.find?_cons_of_neg _ (by simp [hdk])]
  | cons r rs ih =>
    by_cases h : osmKey r = osmKey d
    · show findByKey (if osmKey r = osmKey d then d :: rs else r :: upsertOne rs d) _ = _
      rw [if_pos h]
      show List.find? (fun x => decide (osmKey x = k)) (d :: rs) =
        List.find? (fun x => decide (osmKey x = k)) (r :: rs)
      rw [List.find?_cons_of_neg _ (by simp [hdk]),
        List.find?_cons_of_neg _ (by simp [h ▸ hdk])]
    · show findByKey (if osmKey r = osmKey d then d :: rs else r :: upsertOne rs d) _ = _
      rw [if_neg h]
      by_cases hr : osmKey r = k
      · show List.find? (fun x => decide (osmKey x = k)) (r :: upsertOne rs d) =
          List.find? (fun x => decide (osmKey x = k)) (r :: rs)
        rw [List.find?_cons_of_pos _ (by simp [hr]), List.find?_cons_of_pos _ (by simp [hr])]
      · show List.find? (fun x => decide (osmKey x = k)) (r :: upsertOne rs d) =
          List.find? (fun x => decide (osmKey x = k)) (r :: rs)
        rw [List.find?_cons_of_neg _ (by simp [hr]), List.find?_cons_of_neg _ (by simp [hr])]
        exact ih

/-- Members of an upserted store are the upserted document or old members. -/
theorem mem_upsertOne {s : List OsmDoc} {d b : OsmDoc} (h : b ∈ upsertOne s d) :
    b = d ∨ b ∈ s := by
  induction s with
  | nil =>
    rw [upsertOne] at h
    rcases List.mem_singleton.mp h with h'
    exact Or.inl h'
  | cons r rs ih =>
    by_cases hk : osmKey r = osmKey d
    · rw [upsertOne, if_pos hk] at h
      rcases List.mem_cons.mp h with h' | h'
      · exact Or.inl h'
      · exact Or.inr (List.mem_cons_of_mem _ h')
    · rw [upsertOne, if_neg hk] at h
      rcases List.mem_cons.mp h with h' | h'
      · exact Or.inr (h' ▸ List.mem_cons_self _ _)
      · rcases ih h' with h'' | h''
        · exact Or.inl h''
        · exact Or.inr (List.mem_cons_of_mem _ h'')

/-- An upsert preserves the no-duplicate-keys invariant. -/
theorem NoDupKeys_upsertOne (s : List OsmDoc) (d : OsmDoc) (h : NoDupKeys s) :
    NoDupKeys (upsertOne s d) := by
  induction s with
  | nil => simp [upsertOne, NoDupKeys]
  | cons r rs ih =>
    rw [NoDupKeys, List.pairwise_cons] at h
    obtain ⟨hhead, htail⟩ := h
    by_cases hk : osmKey r = osmKey d
    · rw [upsertOne, if_pos hk, NoDupKeys, List.pairwise_cons]
      exact ⟨fun b hb => hk ▸ hhead b hb, htail⟩
    · rw [upsertOne, if_neg hk, NoDupKeys, List.pairwise_cons]
      refine ⟨fun b hb => ?_, ih htail⟩
      rcases mem_upsertOne hb with h' | h'
      · exact h' ▸ hk
      · exact hhead b h'

/-- When the key is already present, an upsert replaces in place and the key
sequence of the store is unchanged. -/
theorem keys_upsertOne_of_present (s : List OsmDoc) (d : OsmDoc)
    (h : (findByKey s (osmKey d)).isSome) :
    (upsertOne s d).map osmKey = s.map osmKey := by
  induction s with
  | nil => simp [findByKey] at h
  | cons r rs ih =>
    by_cases hk : osmKey r = osmKey d
    · rw [upsertOne, if_pos hk]
      simp [hk]
    · rw [upsertOne, if_neg hk]
      have h' : (findByKey rs (osmKey d)).isSome := by
        rw [findByKey] at h
        rw [List.find?_cons_of_neg _ (by simp [hk])] at h
        exact h
      simp [ih h']

/-- An upsert never removes a present key. -/
theorem findByKey_isSome_upsertOne (s : List OsmDoc) (d : OsmDoc)
    (k : Option String × Option Int) (h : (findByKey s k).isSome) :
    (findByKey (upsertOne s d) k).isSome := by
  by_cases hk : k = osmKey d
  · rw [hk, findByKey_upsertOne_self]; rfl
  · rw [findByKey_upsertOne_other s d k hk]; exact h

/-- A document occurring in a batch has a last occurrence under its key. -/
theorem lastWith_isSome_of_mem {d : OsmDoc} {ds : List OsmDoc} (h : d ∈ ds) :
    (lastWith (osmKey d) ds).isSome := by
  induction ds with
  | nil => simp at h
  | cons c cs ih =>
    rw [lastWith]
    rcases hlw : lastWith (osmKey d) cs with _ | x
    · rcases List.mem_cons.mp h with h' | h'
      · simp [h']
      · rw [hlw] at ih; exact absurd (ih h') (by simp)
    · simp

/-- Lookup after a whole batch of upserts: the last batch document under the
key when one exists, the original lookup otherwise. -/
theorem findByKey_applyUpserts (s : List OsmDoc) (ds : List OsmDoc)
    (k : Option String × Option Int) :
    findByKey (applyUpserts s ds) k =
      match lastWith k ds with
      | some x => some x
      | none => findByKey s k := by
  induction ds generalizing s with
  | nil => simp [applyUpserts, lastWith]
  | cons d ds ih =>
    rw [applyUpserts, ih]
    rcases h : lastWith k ds with _ | x
    · rw [lastWith, h]
      by_cases hk : osmKey d = k
      · rw [if_pos hk, ← hk, findByKey_upsertOne_self]
      · rw [if_neg hk, findByKey_upsertOne_other s d k (fun hh => hk hh.symm)]
    · rw [lastWith, h]

/-- A whole batch of upserts preserves the no-duplicate-keys invariant. -/
theorem NoDupKeys_applyUpserts (s : List OsmDoc) (ds : List OsmDoc) (h : NoDupKeys s) :
    NoDupKeys (applyUpserts s ds) := by
  induction ds generalizing s with
  | nil => exact h
  | cons d ds ih => exact ih _ (NoDupKeys_upsertOne s d h)

/-- When every batch key is already present, a batch of upserts leaves the
key sequence of the store unchanged. -/
theorem keys_applyUpserts_of_present (s : List OsmDoc) (ds : List OsmDoc)
    (h : ∀ d ∈ ds, (findByKey s (osmKey d)).isSome) :
    (applyUpserts s ds).map osmKey = s.map osmKey := by
  induction ds generalizing s with
  | nil => rfl
  | cons d ds ih =>
    rw [applyUpserts]
    have h1 := keys_upsertOne_of_present s d (h d (List.mem_cons_self _ _))
    have h2 : ∀ d2 ∈ ds, (findByKey (upsertOne s d) (osmKey d2)).isSome :=
      fun d2 hd2 => findByKey_isSome_upsertOne s d _ (h d2 (List.mem_cons_of_mem _ hd2))
    exact (ih _ h2).trans h1

/-- A key carried by no record is not found. -/
theorem findByKey_eq_none (s : List OsmDoc) (k : Option String × Option Int)
    (h : ∀ b ∈ s, osmKey b ≠ k) : findByKey s k = none :=
  List.find?_eq_none.mpr fun b hb => by simp [h b hb]

/-- Two stores with the same key sequence, no duplicate keys, and the same
lookups are equal. -/
theorem eq_of_keys_and_find (t : List OsmDoc) : ∀ s : List OsmDoc,
    s.map osmKey = t.map osmKey → NoDupKeys t →
    (∀ k, findByKey s k = findByKey t k) → s = t := by
  induction t with
  | nil =>
    intro s hkeys _ _
    simpa using List.map_eq_nil_iff.mp hkeys
  | cons r rs ih =>
    intro s hkeys hnd hfind
    cases s with
    | nil => simp at hkeys
    | cons a as =>
      simp only [List.map_cons, List.cons.injEq] at hkeys
      obtain ⟨ha, htl⟩ := hkeys
      have hfr := hfind (osmKey r)
      rw [findByKey, findByKey, List.find?_cons_of_pos _ (by simp [ha]),
        List.find?_cons_of_pos _ (by simp)] at hfr
      have har : a = r := by injection hfr
      subst har
      rw [NoDupKeys, List.pairwise_cons] at hnd
      obtain ⟨hhead, htail⟩ := hnd
      have has : as = rs := by
        refine ih as htl htail fun k => ?_
        by_cases hk : k = osmKey a
        · subst hk
          have h1 : findByKey as (osmKey a) = none := by
            refine findByKey_eq_none as _ fun b hb => ?_
            have : osmKey b ∈ rs.map osmKey := htl ▸ List.mem_map_of_mem osmKey hb
            rcases List.mem_map.mp this with ⟨b', hb', he⟩
            rw [← he]
            exact fun hc => hhead b' hb' hc.symm
          have h2 : findByKey rs (osmKey a) = none :=
            findByKey_eq_none rs _ fun b hb hc => hhead b hb hc.symm
          rw [h1, h2]
        · have hka : ¬ osmKey a = k := fun hh => hk hh.symm
          have := hfind k
          rw [findByKey, findByKey, List.find?_cons_of_neg _ (by simp [hka]),
            List.find?_cons_of_neg _ (by simp [hka])] at this
          exact this
      rw [has]

/-- C1: the OSM importer's upsert routine is idempotent by external identity:
on a store with no duplicate (osm_type, osm_id) keys, writing a batch of
documents twice produces exactly the store of the first write, the resulting
store again has no duplicate keys (so no document is duplicated), and for
every written document the record stored under its key is the last batch
document carrying that key (last write wins). -/
theorem upsert_documents_idempotent_by_external_id
    (store docs : List OsmDoc) (h : NoDupKeys store) :
    (upsert_documents (upsert_documents store docs).1 docs).1 =
      (upsert_documents store docs).1 ∧
    NoDupKeys (upsert_documents store docs).1 ∧
    ∀ d ∈ docs, findByKey (upsert_documents store docs).1 (osmKey d) =
      lastWith (osmKey d) docs := by
  have hu : ∀ (c dd : List OsmDoc), (upsert_documents c dd).1 = applyUpserts c dd :=
    fun _ _ => rfl
  simp only [hu]
  have hpresent : ∀ d ∈ docs, (findByKey (applyUpserts store docs) (osmKey d)).isSome := by
    intro d hd
    rw [findByKey_applyUpserts]
    rcases hlw : lastWith (osmKey d) docs with _ | x
    · exact absurd (hlw ▸ lastWith_isSome_of_mem hd) (by simp)
    · rfl
  refine ⟨?_, NoDupKeys_applyUpserts store docs h, ?_⟩
  · refine eq_of_keys_and_find (applyUpserts store docs) _
      (keys_applyUpserts_of_present _ docs hpresent)
      (NoDupKeys_applyUpserts store docs h) fun k => ?_
    rw [findByKey_applyUpserts, findByKey_applyUpserts]
    rcases hlw : lastWith k docs with _ | x <;> simp [hlw]
  · intro d hd
    rw [findByKey_applyUpserts]
    rcases hlw : lastWith (osmKey d) docs with _ | x
    · exact absurd (hlw ▸ lastWith_isSome_of_mem hd) (by simp)
    · rfl

/-- Witness for C1: an empty store and a batch holding two documents under
the same key and one under another; the second write is a no-op and the last
document under the duplicated key wins. -/
theorem upsert_documents_idempotent_witness :
    (upsert_documents (upsert_documents []
        [⟨some "node", some 1, "a"⟩, ⟨some "node", some 1, "b"⟩, ⟨some "way", some 2, "c"⟩]).1
        [⟨some "node", some 1, "a"⟩, ⟨some "node", some 1, "b"⟩, ⟨some "way", some 2, "c"⟩]).1 =
      (upsert_documents []
        [⟨some "node", some 1, "a"⟩, ⟨some "node", some 1, "b"⟩, ⟨some "way", some 2, "c"⟩]).1 ∧
    findByKey (upsert_documents []
        [⟨some "node", some 1, "a"⟩, ⟨some "node", some 1, "b"⟩, ⟨some "way", some 2, "c"⟩]).1
        (osmKey ⟨some "node", some 1, "a"⟩) =
      lastWith (osmKey ⟨some "node", some 1, "a"⟩)
        [⟨some "node", some 1, "a"⟩, ⟨some "node", some 1, "b"⟩, ⟨some "way", some 2, "c"⟩] :=
  ⟨(upsert_documents_idempotent_by_external_id []
      [⟨some "node", some 1, "a"⟩, ⟨some "node", some 1, "b"⟩, ⟨some "way", some 2, "c"⟩]
      (by simp [NoDupKeys])).1,
   (upsert_documents_idempotent_by_external_id []
      [⟨some "node", some 1, "a"⟩, ⟨some "node", some 1, "b"⟩, ⟨some "way", some 2, "c"⟩]
      (by simp [NoDupKeys])).2.2 ⟨some "node", some 1, "a"⟩ (by simp)⟩

/-! ### Lemmas about the markdown-link matcher -/

/-- Soundness of the group scan: a successful scan splits the input at its
first `')'`, and the group holds neither `')'` nor a newline. -/
theorem scanGroup_sound {l g : List Char} (h : scanGroup l = some g) :
    ∃ rest, l = g ++ ')' :: rest ∧ ')' ∉ g ∧ '\n' ∉ g := by
  induction l generalizing g with
  | nil => exact Option.noConfusion h
  | cons c r ih =>
    rw [scanGroup] at h
    by_cases h1 : c = ')'
    · rw [if_pos h1] at h
      have hg : g = [] := by injection h with h'; exact h'.symm
      subst hg
      exact ⟨r, by simp [h1], by simp, by simp⟩
    · rw [if_neg h1] at h
      by_cases h2 : c = '\n'
      · rw [if_pos h2] at h; simp at h
      · rw [if_neg h2] at h
        rcases hsg : scanGroup r with _ | g'
        · rw [hsg] at h; simp at h
        · rw [hsg] at h
          simp only [Option.map_some', Option.some.injEq] at h
          subst h
          obtain ⟨rest, hr, hnp, hnn⟩ := ih hsg
          refine ⟨rest, by simp [hr], ?_, ?_⟩
          · intro hmem
            rcases List.mem_cons.mp hmem with h' | h'
            · exact h1 h'.symm
            · exact hnp h'
          · intro hmem
            rcases List.mem_cons.mp hmem with h' | h'
            · exact h2 h'.symm
            · exact hnn h'

/-- Completeness of the group scan on a well-formed group. -/
theorem scanGroup_complete (inner rest : List Char) (h1 : ')' ∉ inner) (h2 : '\n' ∉ inner) :
    scanGroup (inner ++ ')' :: rest) = some inner := by
  induction inner with
  | nil => simp [scanGroup]
  | cons c cs ih =>
    have hc1 : ¬ c = ')' := fun hh => h1 (by simp [hh])
    have hc2 : ¬ c = '\n' := fun hh => h2 (by simp [hh])
    have hih := ih (fun hh => h1 (List.mem_cons_of_mem _ hh))
      (fun hh => h2 (List.mem_cons_of_mem _ hh))
    simp [scanGroup, hc1, hc2, hih]

/-- Soundness of the marker scan: a successful scan decomposes the input as
text, the marker `"]("`, the group, `')'` and a remainder, where the text
holds no marker and no newline. -/
theorem scanAfterBracket_sound {l g : List Char} (h : scanAfterBracket l = some g) :
    ∃ text rest, l = text ++ ']' :: '(' :: (g ++ ')' :: rest) ∧
      hasBP text = false ∧ '\n' ∉ text ∧ ')' ∉ g ∧ '\n' ∉ g := by
  induction l generalizing g with
  | nil => simp [scanAfterBracket] at h
  | cons c r ih =>
    rw [scanAfterBracket] at h
    by_cases h1 : c = ']' ∧ r.head? = some '('
    · rw [if_pos h1] at h
      obtain ⟨hc, hh⟩ := h1
      subst hc
      cases r with
      | nil => simp at hh
      | cons r0 rr =>
        simp only [List.head?_cons, Option.some.injEq] at hh
        subst hh
        rw [List.tail_cons] at h
        obtain ⟨rest, hr, hnp, hnn⟩ := scanGroup_sound h
        exact ⟨[], rest, by simp [hr], rfl, by simp, hnp, hnn⟩
    · rw [if_neg h1] at h
      by_cases h2 : c = '\n'
      · rw [if_pos h2] at h; simp at h
      · rw [if_neg h2] at h
        obtain ⟨text, rest, hr, hbp, hnl, hnp, hnn⟩ := ih h
        refine ⟨c :: text, rest, by simp [hr], ?_, ?_, hnp, hnn⟩
        · rw [hasBP]
          have hcond : ¬ (c = ']' ∧ text.head? = some '(') := by
            rintro ⟨hc, ht⟩
            apply h1
            refine ⟨hc, ?_⟩
            cases text with
            | nil => simp at ht
            | cons t0 ts =>
              simp only [List.head?_cons, Option.some.injEq] at ht
              rw [hr]
              simp [ht]
          rw [if_neg hcond]
          exact hbp
        · intro hmem
          rcases List.mem_cons.mp hmem with h' | h'
          · exact h2 h'.symm
          · exact hnl h'

/-- Completeness of the marker scan on a well-formed decomposition. -/
theorem scanAfterBracket_complete (text inner rest : List Char)
    (hbp : hasBP text = false) (hnl : '\n' ∉ text)
    (h1 : ')' ∉ inner) (h2 : '\n' ∉ inner) :
    scanAfterBracket (text ++ ']' :: '(' :: (inner ++ ')' :: rest)) = some inner := by
  induction text with
  | nil =>
    rw [List.nil_append, scanAfterBracket, if_pos ⟨rfl, rfl⟩]
    exact scanGroup_complete inner rest h1 h2
  | cons c ts ih =>
    have hsplit : ¬ (c = ']' ∧ ts.head? = some '(') ∧ hasBP ts = false := by
      rw [hasBP] at hbp
      by_cases hc : c = ']' ∧ ts.head? = some '('
      · rw [if_pos hc] at hbp; exact absurd hbp (by simp)
      · rw [if_neg hc] at hbp; exact ⟨hc, hbp⟩
    rw [List.cons_append, scanAfterBracket]
    have hcond : ¬ (c = ']' ∧ (ts ++ ']' :: '(' :: (inner ++ ')' :: rest)).head? = some '(') := by
      rintro ⟨hc, hh⟩
      apply hsplit.1
      refine ⟨hc, ?_⟩
      cases ts with
      | nil => simp at hh
      | cons t0 ts2 =>
        simp only [List.cons_append, List.head?_cons, Option.some.injEq] at hh
        simp [hh]
    rw [if_neg hcond]
    have hc2 : ¬ c = '\n' := fun hh => hnl (by simp [hh])
    rw [if_neg hc2]
    exact ih hsplit.2 (fun hh => hnl (List.mem_cons_of_mem _ hh))

/-- C10: clean_markdown_link returns non-string values unchanged; a string
that starts with a markdown link — bracketed text holding no newline and no
marker `"]("`, then `"]("`, then an inner part holding no newline and no
`')'`, then `')'` — is replaced by the inner part with a leading
`"mailto:"` stripped; and every string is either returned unchanged or is of
that shape and maps to its stripped inner part. -/
theorem clean_markdown_link_behaviour :
    (∀ n, clean_markdown_link (.vother n) = .vother n) ∧
    (∀ text inner rest : List Char,
      hasBP text = false → '\n' ∉ text → ')' ∉ inner → '\n' ∉ inner →
      clean_markdown_link (.vstr ('[' :: (text ++ ']' :: '(' :: (inner ++ ')' :: rest)))) =
        .vstr (stripMailto inner)) ∧
    (∀ s, clean_markdown_link (.vstr s) = .vstr s ∨
      ∃ text inner rest,
        s = '[' :: (text ++ ']' :: '(' :: (inner ++ ')' :: rest)) ∧
        hasBP text = false ∧ '\n' ∉ text ∧ ')' ∉ inner ∧ '\n' ∉ inner ∧
        clean_markdown_link (.vstr s) = .vstr (stripMailto inner)) := by
  refine ⟨fun n => rfl, fun text inner rest hbp hnl h1 h2 => ?_, fun s => ?_⟩
  · have hm : matchMdLink ('[' :: (text ++ ']' :: '(' :: (inner ++ ')' :: rest))) =
        some inner := by
      rw [matchMdLink, if_pos rfl]
      exact scanAfterBracket_complete text inner rest hbp hnl h1 h2
    simp [clean_markdown_link, hm]
  · cases s with
    | nil => left; rfl
    | cons c r =>
      by_cases hc : c = '['
      · subst hc
        rcases hm : scanAfterBracket r with _ | g
        · left; simp [clean_markdown_link, matchMdLink, hm]
        · right
          obtain ⟨text, rest, hr, hbp, hnl, hnp, hnn⟩ := scanAfterBracket_sound hm
          exact ⟨text, g, rest, by rw [hr], hbp, hnl, hnp, hnn,
            by simp [clean_markdown_link, matchMdLink, hm]⟩
      · left; simp [clean_markdown_link, matchMdLink, hc]

/-- Witness for C10 at the concrete string "[text](mailto:foo)", cleaned to
"foo". -/
theorem clean_markdown_link_witness :
    clean_markdown_link (.vstr ('[' :: (['t', 'e', 'x', 't'] ++ ']' :: '(' ::
        (['m', 'a', 'i', 'l', 't', 'o', ':', 'f', 'o', 'o'] ++ ')' :: [])))) =
      .vstr ['f', 'o', 'o'] :=
  (clean_markdown_link_behaviour.2.1 ['t', 'e', 'x', 't']
    ['m', 'a', 'i', 'l', 't', 'o', ':', 'f', 'o', 'o'] []
    (by decide) (by decide) (by decide) (by decide)).trans (by decide)

end TwoTable
